import Mathlib

/-!
# Verification of the lumen RPC framing and message layer

Shallow embedding of `src/common/src/rpc/mod.rs`: the error taxonomy, the
packet framing primitives `read_packet` / `write_packet`, the tagged message
envelope `RpcMessage` with `get_code`, `serialize` and `deserialize`, and a
model of the binary codec (`ser.rs` / `de.rs`, which are not part of the
visible sources) built from the specification's description.

Byte streams are `List Nat`, each element one byte (< 256 on every input the
program actually sees).  Fallible Rust code returns `Except Error`; the one
place the Rust code can panic (`payload[0]` on an empty buffer in
`RpcMessage::deserialize`) is modelled with `Option`, `none` standing for the
panic.  `read_packet` is modelled together with an explicit account of its
effects: the sizes it passes to `try_reserve_exact` and the number of bytes it
consumes from the stream.
-/

namespace Lumen

/-- The relevant kinds of `std::io::Error` constructed or observed by this
module: `read_exact` hitting end of stream, and the two explicit
`std::io::Error::new(std::io::ErrorKind::InvalidData, ...)` constructions in
`read_packet`. -/
inductive IOErrorKind where
  | unexpectedEof
  | invalidData
deriving DecidableEq, Repr

/-- The error taxonomy of `src/common/src/rpc/mod.rs` (`enum Error`).
Payloads that this development never inspects (`Utf8Error`, `DbError`
wrapped errors) are dropped; the `std::io::Error` wrapped by `IOError`
is kept as its kind, which is what the framing code sets and the spec
talks about. -/
inductive Error where
  | UnexpectedEof
  | Utf8Error
  | IOError (kind : IOErrorKind)
  | Serde (msg : String)
  | DbError
  | InvalidData
  | OutOfMemory
  | Todo
deriving DecidableEq, Repr

/-- `u32::from_be_bytes([b0,b1,b2,b3])` on bytes modelled as `Nat`. -/
def u32_from_be (b0 b1 b2 b3 : Nat) : Nat :=
  ((b0 * 256 + b1) * 256 + b2) * 256 + b3

/-- `u32::to_be_bytes` of `n : u32`; on a `Nat` argument it emits the four
big-endian bytes of `n` modulo `2 ^ 32`, exactly as the truncating Rust cast
chain does. -/
def u32_to_be (n : Nat) : List Nat :=
  [n / 2 ^ 24 % 256, n / 2 ^ 16 % 256, n / 2 ^ 8 % 256, n % 256]

/-- `get_code_maxlen` from `src/common/src/rpc/mod.rs` lines 62-68: the
per-discriminant payload ceiling. -/
def get_code_maxlen (code : Nat) : Nat :=
  if code = 0x0e then 50 * 1024 * 1024       -- PullMD: 50 MiB
  else if code = 0x10 then 200 * 1024 * 1024 -- PushMD: 200 MiB
  else 1024 * 50                             -- otherwise 50K

/-- `read_packet` from `src/common/src/rpc/mod.rs` lines 70-100, instrumented
with an explicit effect account.  The result triple is:
* the `Result<Vec<u8>, Error>` value (`.1`),
* the list of sizes passed to `try_reserve_exact` (`.2.1`) — the code
  performs at most one such allocation, of `buf_len + 1` bytes, reached only
  after the floor and ceiling checks pass,
* the number of bytes consumed from the stream (`.2.2`); `read_exact`
  consumes everything available when it fails with end-of-stream.

The source reads a 5-byte header, takes `code = head[4]`, decodes
`buf_len = u32::from_be_bytes(head[..4])`, rejects `buf_len < 4` and
`buf_len > get_code_maxlen code` with `io::ErrorKind::InvalidData` (converted
to `Error::IOError` by the `From` impl), then allocates `buf_len + 1` bytes,
writes `code` at index 0 and fills indices `1..` from the stream. -/
def read_packet_run (stream : List Nat) :
    Except Error (List Nat) × List Nat × Nat :=
  if stream.length < 5 then
    (.error (.IOError .unexpectedEof), [], stream.length)
  else
    let code := stream.getD 4 0
    let buf_len := u32_from_be (stream.getD 0 0) (stream.getD 1 0)
      (stream.getD 2 0) (stream.getD 3 0)
    if buf_len < 4 then
      (.error (.IOError .invalidData), [], 5)
    else if buf_len > get_code_maxlen code then
      (.error (.IOError .invalidData), [], 5)
    else
      let rest := stream.drop 5
      if rest.length < buf_len then
        (.error (.IOError .unexpectedEof), [buf_len + 1], 5 + rest.length)
      else
        (.ok (code :: rest.take buf_len), [buf_len + 1], 5 + buf_len)

/-- The `Result<Vec<u8>, Error>` value returned by `read_packet`. -/
def read_packet (stream : List Nat) : Except Error (List Nat) :=
  (read_packet_run stream).1

/-- The sizes `read_packet` passes to `try_reserve_exact` on `stream`. -/
def read_packet_allocs (stream : List Nat) : List Nat :=
  (read_packet_run stream).2.1

/-- The number of bytes `read_packet` consumes from `stream`. -/
def read_packet_consumed (stream : List Nat) : Nat :=
  (read_packet_run stream).2.2

/-- `write_packet` from `src/common/src/rpc/mod.rs` lines 102-108: emit the
four big-endian bytes of `(data.len() - 1) as u32`, then `data` verbatim.
The `as u32` cast truncates modulo `2 ^ 32` (made explicit here; `u32_to_be`
would truncate the same way).  The Rust code underflows when `data` is empty;
every caller passes a buffer holding at least the discriminant byte, and the
claims below all assume `data ≠ []`, where `Nat` subtraction agrees with
Rust's. -/
def write_packet (data : List Nat) : List Nat :=
  u32_to_be ((data.length - 1) % 2 ^ 32) ++ data

/-- The declared payload length in `stream`'s header, as `read_packet`
decodes it. -/
def declared_len (stream : List Nat) : Nat :=
  u32_from_be (stream.getD 0 0) (stream.getD 1 0) (stream.getD 2 0)
    (stream.getD 3 0)

/-! ## The binary codec, modelled from the spec

The codec sources (`ser.rs`, `de.rs`) and the payload record definitions
(`messages.rs`) are not among the visible sources; only their callers in
`mod.rs` are.  Following spec section 4.2, we model a payload record as an
ordered sequence of fields, each either an integer scalar or a
length-prefixed byte/text sequence, encoded field after field; decoding is
type-directed (driven by the expected shape) and returns the value together
with the number of bytes consumed, without requiring that every input byte
be consumed. -/

/-- Modelled from the spec: one field of a payload record, either an integer
scalar or a byte/text sequence (spec section 4.2: "tuple-of-fields,
length-prefixed strings/bytes").  The record definitions in `messages.rs`
are missing from the visible sources. -/
inductive Field where
  | scalar (n : Nat)
  | blob (bs : List Nat)
deriving DecidableEq, Repr

/-- A payload record: an ordered sequence of fields. -/
abbrev Record := List Field

/-- The shape (expected type) of one field, used to drive decoding. -/
inductive FieldKind where
  | scalarK
  | blobK
deriving DecidableEq, Repr

/-- The kind of a field value. -/
def fieldKind : Field → FieldKind
  | .scalar _ => .scalarK
  | .blob _ => .blobK

/-- Well-formedness of a field value: scalars fit in a `u32` and blobs hold
bytes and have a length that fits the 4-byte length prefix.  Every value the
Rust code can represent satisfies this by typing. -/
def fieldWf : Field → Bool
  | .scalar n => n < 2 ^ 32
  | .blob bs => bs.length < 2 ^ 32 && bs.all (· < 256)

/-- Modelled from the spec: encode a field — scalars as 4 big-endian bytes,
sequences as a 4-byte big-endian length prefix followed by the raw bytes
(spec section 4.2: "ordered sequential encoding of struct fields / tuple
elements; sequences and text are length-prefixed"). -/
def encodeField : Field → List Nat
  | .scalar n => u32_to_be n
  | .blob bs => u32_to_be bs.length ++ bs

/-- Modelled from the spec: encode a record by concatenating its fields'
encodings in order. -/
def encodeRecord (r : Record) : List Nat :=
  (r.map encodeField).flatten

/-- Modelled from the spec: decode one field of the expected kind from the
front of `bs`, returning the value and the number of bytes consumed, or a
`Serde` error on structurally malformed input (truncated scalar, declared
sequence length exceeding the remaining buffer). -/
def decodeField (k : FieldKind) (bs : List Nat) : Except Error (Field × Nat) :=
  match k with
  | .scalarK =>
    if bs.length < 4 then .error (.Serde "unexpected end of input")
    else .ok (.scalar (u32_from_be (bs.getD 0 0) (bs.getD 1 0) (bs.getD 2 0)
      (bs.getD 3 0)), 4)
  | .blobK =>
    if bs.length < 4 then .error (.Serde "unexpected end of input")
    else
      let len := u32_from_be (bs.getD 0 0) (bs.getD 1 0) (bs.getD 2 0)
        (bs.getD 3 0)
      if bs.length - 4 < len then .error (.Serde "length exceeds buffer")
      else .ok (.blob ((bs.drop 4).take len), 4 + len)

/-- Modelled from the spec: `de::from_slice` — decode a record of the given
shape from the front of `bs`, returning the record and the total number of
bytes consumed; trailing bytes are left untouched. -/
def decodeFields (shape : List FieldKind) (bs : List Nat) :
    Except Error (Record × Nat) :=
  match shape with
  | [] => .ok ([], 0)
  | k :: ks =>
    match decodeField k bs with
    | .error e => .error e
    | .ok (f, n) =>
      match decodeFields ks (bs.drop n) with
      | .error e => .error e
      | .ok (fs, m) => .ok (f :: fs, n + m)

/-! ## The message model -/

/-- `enum RpcMessage` from `src/common/src/rpc/mod.rs` lines 110-119.  The
payload record types (`RpcFail`, `RpcNotify`, `RpcHello`, `PullMetadata`,
`PullMetadataResult`, `PushMetadata`, `PushMetadataResult`) are defined in
`messages.rs`, which is not among the visible sources; each is modelled as a
`Record` (the `Ok` variant carries the unit payload `()`). -/
inductive RpcMessage where
  | Ok
  | Fail (r : Record)
  | Notify (r : Record)
  | Hello (r : Record)
  | PullMetadata (r : Record)
  | PullMetadataResult (r : Record)
  | PushMetadata (r : Record)
  | PushMetadataResult (r : Record)
deriving DecidableEq, Repr

/-- `RpcMessage::get_code` from `src/common/src/rpc/mod.rs` lines 191-204. -/
def get_code : RpcMessage → Nat
  | .Ok => 0x0a
  | .Fail _ => 0x0b
  | .Notify _ => 0x0c
  | .Hello _ => 0x0d
  | .PullMetadata _ => 0x0e
  | .PullMetadataResult _ => 0x0f
  | .PushMetadata _ => 0x10
  | .PushMetadataResult _ => 0x11

/-- Modelled from the spec: the field shape of each variant's payload record
(the record definitions in `messages.rs` are missing from the visible
sources; the layouts below are representative — an error descriptor as code
plus text, the rest as length-prefixed sequences — and no claim depends on
the particular choice). -/
def shapeOfCode (code : Nat) : List FieldKind :=
  if code = 0x0b then [.scalarK, .blobK]       -- Fail: status code, message
  else if code = 0x0c then [.blobK]            -- Notify: notification text
  else if code = 0x0d then [.scalarK, .blobK]  -- Hello: version, identity
  else if code = 0x0e then [.blobK]            -- PullMetadata
  else if code = 0x0f then [.blobK]            -- PullMetadataResult
  else if code = 0x10 then [.blobK]            -- PushMetadata
  else if code = 0x11 then [.blobK]            -- PushMetadataResult
  else []

/-- Build the variant a given known discriminant dispatches to, around the
decoded payload record. -/
def mkMsg (code : Nat) (r : Record) : RpcMessage :=
  if code = 0x0b then .Fail r
  else if code = 0x0c then .Notify r
  else if code = 0x0d then .Hello r
  else if code = 0x0e then .PullMetadata r
  else if code = 0x0f then .PullMetadataResult r
  else if code = 0x10 then .PushMetadata r
  else if code = 0x11 then .PushMetadataResult r
  else .Ok

/-- The payload record carried by a message (`[]` for `Ok`, whose payload is
the unit value, encoded as zero bytes). -/
def msgRecord : RpcMessage → Record
  | .Ok => []
  | .Fail r => r
  | .Notify r => r
  | .Hello r => r
  | .PullMetadata r => r
  | .PullMetadataResult r => r
  | .PushMetadata r => r
  | .PushMetadataResult r => r

/-- A message is well formed when its record has its variant's shape and all
fields are well formed; every value representable by the Rust record types
is well formed by typing. -/
def msgWf (m : RpcMessage) : Bool :=
  ((msgRecord m).map fieldKind == shapeOfCode (get_code m))
    && (msgRecord m).all fieldWf

/-- `impl Serialize for RpcMessage` (lines 121-144) composed with
`ser::to_writer`: the envelope is the raw discriminant byte (pushed without
further encoding) followed by the codec encoding of the payload record
(zero bytes for the unit payload of `Ok`). -/
def serializeRpc (m : RpcMessage) : List Nat :=
  get_code m :: encodeRecord (msgRecord m)

/-- `RpcMessage::deserialize_check` from lines 147-153: decode a record of
the given shape from `payload`; when fewer bytes than `payload.len()` were
consumed the remainder is only logged at trace level, never an error. -/
def deserialize_check (shape : List FieldKind) (payload : List Nat) :
    Except Error Record :=
  match decodeFields shape payload with
  | .error e => .error e
  | .ok (v, _consumed) => .ok v

/-- `RpcMessage::deserialize` from lines 155-180.  The Rust code indexes
`payload[0]` unconditionally, which panics on an empty buffer: `none` models
that panic.  A known discriminant dispatches to its variant (the `Ok` branch
accepts any remaining bytes, only logging them); any other first byte yields
`Error::InvalidData`. -/
def deserialize (payload : List Nat) : Option (Except Error RpcMessage) :=
  match payload with
  | [] => none
  | msg_type :: payload =>
    some (
      if msg_type = 0x0a then .ok .Ok
      else if msg_type = 0x0b then
        (deserialize_check (shapeOfCode 0x0b) payload).map .Fail
      else if msg_type = 0x0c then
        (deserialize_check (shapeOfCode 0x0c) payload).map .Notify
      else if msg_type = 0x0d then
        (deserialize_check (shapeOfCode 0x0d) payload).map .Hello
      else if msg_type = 0x0e then
        (deserialize_check (shapeOfCode 0x0e) payload).map .PullMetadata
      else if msg_type = 0x0f then
        (deserialize_check (shapeOfCode 0x0f) payload).map .PullMetadataResult
      else if msg_type = 0x10 then
        (deserialize_check (shapeOfCode 0x10) payload).map .PushMetadata
      else if msg_type = 0x11 then
        (deserialize_check (shapeOfCode 0x11) payload).map .PushMetadataResult
      else .error .InvalidData)

/-! ## Helper lemmas -/

theorem u32_from_be_to_be (n : Nat) :
    u32_from_be (n / 2 ^ 24 % 256) (n / 2 ^ 16 % 256) (n / 2 ^ 8 % 256)
      (n % 256) = n % 2 ^ 32 := by
  simp only [u32_from_be]
  omega

theorem u32_from_be_to_be_of_lt {n : Nat} (h : n < 2 ^ 32) :
    u32_from_be (n / 2 ^ 24 % 256) (n / 2 ^ 16 % 256) (n / 2 ^ 8 % 256)
      (n % 256) = n := by
  rw [u32_from_be_to_be, Nat.mod_eq_of_lt h]

theorem get_code_maxlen_lt (code : Nat) : get_code_maxlen code < 2 ^ 32 := by
  unfold get_code_maxlen
  split <;> [norm_num; skip]
  split <;> norm_num

/-- Evaluate `read_packet_run` on a stream decomposed into its 5-byte header
and the remaining bytes. -/
theorem read_packet_run_cons (b0 b1 b2 b3 code : Nat) (rest : List Nat) :
    read_packet_run (b0 :: b1 :: b2 :: b3 :: code :: rest) =
      if u32_from_be b0 b1 b2 b3 < 4 then
        (.error (.IOError .invalidData), [], 5)
      else if u32_from_be b0 b1 b2 b3 > get_code_maxlen code then
        (.error (.IOError .invalidData), [], 5)
      else if rest.length < u32_from_be b0 b1 b2 b3 then
        (.error (.IOError .unexpectedEof),
         [u32_from_be b0 b1 b2 b3 + 1], 5 + rest.length)
      else
        (.ok (code :: rest.take (u32_from_be b0 b1 b2 b3)),
         [u32_from_be b0 b1 b2 b3 + 1], 5 + u32_from_be b0 b1 b2 b3) := by
  simp [read_packet_run]

/-- A successful `read_packet` on a stream holding the 4-byte big-endian
encoding of `n`, the discriminant, a payload of exactly `n` bytes and
arbitrary further bytes. -/
theorem read_packet_run_ok (n code : Nat) (payload extra : List Nat)
    (h4 : 4 ≤ n) (hmax : n ≤ get_code_maxlen code)
    (hlen : payload.length = n) :
    read_packet_run (u32_to_be n ++ code :: (payload ++ extra)) =
      (.ok (code :: payload), [n + 1], 5 + n) := by
  have hn : n < 2 ^ 32 := lt_of_le_of_lt hmax (get_code_maxlen_lt code)
  have hdec := u32_from_be_to_be_of_lt hn
  simp only [u32_to_be, List.cons_append, List.nil_append]
  rw [read_packet_run_cons, hdec]
  have h1 : ¬ n < 4 := by omega
  have h2 : ¬ n > get_code_maxlen code := by omega
  have h3 : ¬ (payload ++ extra).length < n := by
    simp [List.length_append, hlen]
  rw [if_neg h1, if_neg h2, if_neg h3]
  congr 2
  rw [← hlen, List.take_left]

theorem decodeField_encodeField (f : Field) (extra : List Nat)
    (h : fieldWf f = true) :
    decodeField (fieldKind f) (encodeField f ++ extra) =
      .ok (f, (encodeField f).length) := by
  cases f with
  | scalar n =>
    have hn : n < 2 ^ 32 := by simpa [fieldWf] using h
    simp only [fieldKind, encodeField, decodeField, u32_to_be,
      List.cons_append, List.nil_append, List.getD_cons_zero,
      List.getD_cons_succ, List.length_cons, u32_from_be_to_be_of_lt hn]
    rw [if_neg (by omega)]
    simp
  | blob bs =>
    have hn : bs.length < 2 ^ 32 := by
      have := h
      simp [fieldWf] at this
      exact this.1
    simp only [fieldKind, encodeField, decodeField, u32_to_be,
      List.cons_append, List.nil_append, List.getD_cons_zero,
      List.getD_cons_succ, List.length_cons, List.length_append,
      u32_from_be_to_be_of_lt hn]
    rw [if_neg (by omega), if_neg (by omega)]
    simp only [List.drop_succ_cons, List.drop_zero, List.take_left,
      Except.ok.injEq, Prod.mk.injEq, and_true, true_and]
    omega

theorem decodeFields_encodeRecord (r : Record) (extra : List Nat)
    (h : r.all fieldWf = true) :
    decodeFields (r.map fieldKind) (encodeRecord r ++ extra) =
      .ok (r, (encodeRecord r).length) := by
  induction r generalizing extra with
  | nil => simp [decodeFields, encodeRecord]
  | cons f fs ih =>
    have hf : fieldWf f = true := by
      simp [List.all_cons] at h
      exact h.1
    have hfs : fs.all fieldWf = true := by
      simp [List.all_cons] at h
      simpa using h.2
    have hrw : encodeRecord (f :: fs) ++ extra =
        encodeField f ++ (encodeRecord fs ++ extra) := by
      simp [encodeRecord, List.append_assoc]
    simp only [List.map_cons, decodeFields, hrw,
      decodeField_encodeField f _ hf]
    rw [List.drop_left, ih extra hfs]
    simp [encodeRecord]

theorem deserialize_check_encodeRecord (shape : List FieldKind) (r : Record)
    (hshape : r.map fieldKind = shape) (hwf : r.all fieldWf = true) :
    deserialize_check shape (encodeRecord r) = .ok r := by
  subst hshape
  have := decodeFields_encodeRecord r [] hwf
  simp only [List.append_nil] at this
  simp [deserialize_check, this]

/-- The list of the eight known discriminants. -/
def knownCodes : List Nat := [0x0a, 0x0b, 0x0c, 0x0d, 0x0e, 0x0f, 0x10, 0x11]

/-! ## Claims -/

/-- C1: the discriminant-to-variant mapping is a total bijection over the
eight message variants: `get_code` assigns each variant the discriminant of
the table in spec section 3; `deserialize` of a buffer whose first byte is a
known discriminant dispatches to exactly that variant (a successful decode
yields that variant and no other); and `deserialize` of a buffer whose first
byte is any other value returns `Error.InvalidData` regardless of the
remaining bytes. -/
theorem claim1_discriminant_bijection :
    (get_code .Ok = 0x0a ∧ (∀ r, get_code (.Fail r) = 0x0b) ∧
     (∀ r, get_code (.Notify r) = 0x0c) ∧ (∀ r, get_code (.Hello r) = 0x0d) ∧
     (∀ r, get_code (.PullMetadata r) = 0x0e) ∧
     (∀ r, get_code (.PullMetadataResult r) = 0x0f) ∧
     (∀ r, get_code (.PushMetadata r) = 0x10) ∧
     (∀ r, get_code (.PushMetadataResult r) = 0x11)) ∧
    (∀ p, deserialize (0x0a :: p) = some (.ok .Ok)) ∧
    (∀ p m, deserialize (0x0b :: p) = some (.ok m) → ∃ r, m = .Fail r) ∧
    (∀ p m, deserialize (0x0c :: p) = some (.ok m) → ∃ r, m = .Notify r) ∧
    (∀ p m, deserialize (0x0d :: p) = some (.ok m) → ∃ r, m = .Hello r) ∧
    (∀ p m, deserialize (0x0e :: p) = some (.ok m) →
      ∃ r, m = .PullMetadata r) ∧
    (∀ p m, deserialize (0x0f :: p) = some (.ok m) →
      ∃ r, m = .PullMetadataResult r) ∧
    (∀ p m, deserialize (0x10 :: p) = some (.ok m) →
      ∃ r, m = .PushMetadata r) ∧
    (∀ p m, deserialize (0x11 :: p) = some (.ok m) →
      ∃ r, m = .PushMetadataResult r) ∧
    (∀ d p, d ∉ knownCodes →
      deserialize (d :: p) = some (.error .InvalidData)) := by
  refine ⟨⟨rfl, fun r => rfl, fun r => rfl, fun r => rfl, fun r => rfl,
    fun r => rfl, fun r => rfl, fun r => rfl⟩, ?_, ?_, ?_, ?_, ?_, ?_, ?_,
    ?_, ?_⟩
  · intro p
    simp [deserialize]
  · intro p m h
    simp only [deserialize, Option.some.injEq] at h
    norm_num at h
    rcases hdc : deserialize_check (shapeOfCode 0x0b) p with e | r <;>
      rw [hdc] at h <;> simp [Except.map] at h
    exact ⟨r, h.symm⟩
  · intro p m h
    simp only [deserialize, Option.some.injEq] at h
    norm_num at h
    rcases hdc : deserialize_check (shapeOfCode 0x0c) p with e | r <;>
      rw [hdc] at h <;> simp [Except.map] at h
    exact ⟨r, h.symm⟩
  · intro p m h
    simp only [deserialize, Option.some.injEq] at h
    norm_num at h
    rcases hdc : deserialize_check (shapeOfCode 0x0d) p with e | r <;>
      rw [hdc] at h <;> simp [Except.map] at h
    exact ⟨r, h.symm⟩
  · intro p m h
    simp only [deserialize, Option.some.injEq] at h
    norm_num at h
    rcases hdc : deserialize_check (shapeOfCode 0x0e) p with e | r <;>
      rw [hdc] at h <;> simp [Except.map] at h
    exact ⟨r, h.symm⟩
  · intro p m h
    simp only [deserialize, Option.some.injEq] at h
    norm_num at h
    rcases hdc : deserialize_check (shapeOfCode 0x0f) p with e | r <;>
      rw [hdc] at h <;> simp [Except.map] at h
    exact ⟨r, h.symm⟩
  · intro p m h
    simp only [deserialize, Option.some.injEq] at h
    norm_num at h
    rcases hdc : deserialize_check (shapeOfCode 0x10) p with e | r <;>
      rw [hdc] at h <;> simp [Except.map] at h
    exact ⟨r, h.symm⟩
  · intro p m h
    simp only [deserialize, Option.some.injEq] at h
    norm_num at h
    rcases hdc : deserialize_check (shapeOfCode 0x11) p with e | r <;>
      rw [hdc] at h <;> simp [Except.map] at h
    exact ⟨r, h.symm⟩
  · intro d p hd
    simp only [knownCodes, List.mem_cons, List.not_mem_nil, or_false,
      not_or] at hd
    obtain ⟨h1, h2, h3, h4, h5, h6, h7, h8⟩ := hd
    simp [deserialize, h1, h2, h3, h4, h5, h6, h7, h8]

/-- Witness for C1: the unknown discriminant `0xff` is rejected with
`Error.InvalidData`, and a buffer tagged `0x0b` decodes to a `Fail`
message. -/
theorem claim1_discriminant_bijection_witness :
    ((0xff : Nat) ∉ knownCodes ∧
      deserialize [0xff, 1, 2, 3] = some (.error .InvalidData)) ∧
    (deserialize (0x0b :: encodeRecord [.scalar 1, .blob [65]]) =
        some (.ok (.Fail [.scalar 1, .blob [65]])) ∧
      ∃ r, RpcMessage.Fail [Field.scalar 1, Field.blob [65]] = .Fail r) := by
  have hnot : (0xff : Nat) ∉ knownCodes := by decide
  have hde : deserialize (0x0b :: encodeRecord [.scalar 1, .blob [65]]) =
      some (.ok (.Fail [.scalar 1, .blob [65]])) := by rfl
  exact ⟨⟨hnot,
      claim1_discriminant_bijection.2.2.2.2.2.2.2.2.2 0xff [1, 2, 3] hnot⟩,
    hde, claim1_discriminant_bijection.2.2.1 _ _ hde⟩

theorem four_le_get_code_maxlen (code : Nat) : 4 ≤ get_code_maxlen code := by
  unfold get_code_maxlen
  split <;> [norm_num; skip]
  split <;> norm_num

/-- C2: `read_packet` enforces the per-type ceiling with an inclusive
boundary: the ceiling is 50 MiB for discriminant `0x0e`, 200 MiB for `0x10`
and 50 KiB for every other discriminant; a declared payload length strictly
above the ceiling is rejected with the `InvalidData` error kind, and a
declared length exactly equal to the ceiling is accepted when the stream
supplies that many payload bytes. -/
theorem claim2_per_type_ceiling :
    (get_code_maxlen 0x0e = 50 * 1024 * 1024 ∧
     get_code_maxlen 0x10 = 200 * 1024 * 1024 ∧
     ∀ code, code ≠ 0x0e → code ≠ 0x10 → get_code_maxlen code = 50 * 1024) ∧
    (∀ b0 b1 b2 b3 code rest,
      get_code_maxlen code < u32_from_be b0 b1 b2 b3 →
      read_packet (b0 :: b1 :: b2 :: b3 :: code :: rest) =
        .error (.IOError .invalidData)) ∧
    (∀ code payload extra, payload.length = get_code_maxlen code →
      read_packet (u32_to_be (get_code_maxlen code) ++
          code :: (payload ++ extra)) = .ok (code :: payload)) := by
  refine ⟨⟨by norm_num [get_code_maxlen], by norm_num [get_code_maxlen],
    fun code h1 h2 => by simp [get_code_maxlen, h1, h2]⟩, ?_, ?_⟩
  · intro b0 b1 b2 b3 code rest hgt
    have h4 : ¬ u32_from_be b0 b1 b2 b3 < 4 := by
      have := four_le_get_code_maxlen code
      omega
    rw [read_packet, read_packet_run_cons, if_neg h4, if_pos hgt]
  · intro code payload extra hlen
    rw [read_packet, read_packet_run_ok (get_code_maxlen code) code payload
      extra (four_le_get_code_maxlen code) le_rfl hlen]

/-- Witness for C2: for the `Ok` discriminant `0x0a`, a declared length of
`50 * 1024 + 1` (header bytes `0, 0, 200, 1`) is rejected, and a declared
length of exactly `50 * 1024` with that many supplied payload bytes is
accepted. -/
theorem claim2_per_type_ceiling_witness :
    (get_code_maxlen 0x0a < u32_from_be 0 0 200 1 ∧
     read_packet [0, 0, 200, 1, 0x0a] = .error (.IOError .invalidData)) ∧
    ((List.replicate (50 * 1024) 0).length = get_code_maxlen 0x0a ∧
     read_packet (u32_to_be (get_code_maxlen 0x0a) ++
        0x0a :: (List.replicate (50 * 1024) 0 ++ [])) =
       .ok (0x0a :: List.replicate (50 * 1024) 0)) := by
  have hlt : get_code_maxlen 0x0a < u32_from_be 0 0 200 1 := by decide
  have hlen : (List.replicate (50 * 1024) 0).length = get_code_maxlen 0x0a := by
    rw [List.length_replicate]
    norm_num [get_code_maxlen]
  exact ⟨⟨hlt, claim2_per_type_ceiling.2.1 0 0 200 1 0x0a [] hlt⟩,
    ⟨hlen, claim2_per_type_ceiling.2.2 0x0a _ [] hlen⟩⟩

/-- C3: a header declaring a payload length strictly below 4 makes
`read_packet` fail with the `InvalidData` error kind, consuming exactly the
5 header bytes from the stream (the payload is never read) and performing no
allocation. -/
theorem claim3_length_floor :
    ∀ b0 b1 b2 b3 code rest, u32_from_be b0 b1 b2 b3 < 4 →
      read_packet (b0 :: b1 :: b2 :: b3 :: code :: rest) =
        .error (.IOError .invalidData) ∧
      read_packet_consumed (b0 :: b1 :: b2 :: b3 :: code :: rest) = 5 ∧
      read_packet_allocs (b0 :: b1 :: b2 :: b3 :: code :: rest) = [] := by
  intro b0 b1 b2 b3 code rest h
  refine ⟨?_, ?_, ?_⟩
  · rw [read_packet, read_packet_run_cons, if_pos h]
  · rw [read_packet_consumed, read_packet_run_cons, if_pos h]
  · rw [read_packet_allocs, read_packet_run_cons, if_pos h]

/-- Witness for C3: a header declaring payload length 3 is rejected after
exactly the 5 header bytes, whatever bytes follow. -/
theorem claim3_length_floor_witness :
    u32_from_be 0 0 0 3 < 4 ∧
    read_packet [0, 0, 0, 3, 0x0a, 9, 9] = .error (.IOError .invalidData) ∧
    read_packet_consumed [0, 0, 0, 3, 0x0a, 9, 9] = 5 ∧
    read_packet_allocs [0, 0, 0, 3, 0x0a, 9, 9] = [] := by
  have h : u32_from_be 0 0 0 3 < 4 := by decide
  exact ⟨h, claim3_length_floor 0 0 0 3 0x0a [9, 9] h⟩

/-- Inversion of a successful `read_packet`: the header was complete, both
checks passed, the stream supplied the declared payload, the returned buffer
is the discriminant followed by the next `declared_len` stream bytes, and
the single allocation was of `declared_len + 1` bytes. -/
theorem read_packet_ok_inversion (stream buf : List Nat)
    (h : read_packet stream = .ok buf) :
    5 ≤ stream.length ∧ 4 ≤ declared_len stream ∧
    declared_len stream ≤ get_code_maxlen (stream.getD 4 0) ∧
    declared_len stream ≤ (stream.drop 5).length ∧
    buf = stream.getD 4 0 :: (stream.drop 5).take (declared_len stream) ∧
    read_packet_allocs stream = [declared_len stream + 1] ∧
    read_packet_consumed stream = 5 + declared_len stream := by
  match stream with
  | [] | [_] | [_, _] | [_, _, _] | [_, _, _, _] =>
    simp [read_packet, read_packet_run] at h
  | b0 :: b1 :: b2 :: b3 :: code :: rest =>
    rw [read_packet, read_packet_run_cons] at h
    have hdl : declared_len (b0 :: b1 :: b2 :: b3 :: code :: rest) =
        u32_from_be b0 b1 b2 b3 := rfl
    split_ifs at h with h1 h2 h3
    · dsimp only at h
      have hbuf : buf = code :: List.take (u32_from_be b0 b1 b2 b3) rest :=
        (Except.ok.inj h).symm
      rw [hdl]
      simp only [List.getD_cons_succ, List.getD_cons_zero,
        List.drop_succ_cons, List.drop_zero, List.length_cons]
      refine ⟨by omega, by omega, by omega, by omega, hbuf, ?_, ?_⟩
      · rw [read_packet_allocs, read_packet_run_cons,
          if_neg h1, if_neg h2, if_neg h3]
      · rw [read_packet_consumed, read_packet_run_cons,
          if_neg h1, if_neg h2, if_neg h3]

/-- Inversion of `read_packet`'s allocation account: any allocation is of
exactly `declared_len + 1` bytes and happens only once both the floor and
the ceiling check have passed. -/
theorem read_packet_allocs_inversion (stream : List Nat) (a : Nat)
    (ha : a ∈ read_packet_allocs stream) :
    a = declared_len stream + 1 ∧ 4 ≤ declared_len stream ∧
    declared_len stream ≤ get_code_maxlen (stream.getD 4 0) := by
  match stream with
  | [] | [_] | [_, _] | [_, _, _] | [_, _, _, _] =>
    simp [read_packet_allocs, read_packet_run] at ha
  | b0 :: b1 :: b2 :: b3 :: code :: rest =>
    rw [read_packet_allocs, read_packet_run_cons] at ha
    have hdl : declared_len (b0 :: b1 :: b2 :: b3 :: code :: rest) =
        u32_from_be b0 b1 b2 b3 := rfl
    split_ifs at ha with h1 h2 h3 <;>
      simp only [List.mem_singleton, List.not_mem_nil] at ha <;>
      try exact absurd ha (by simp)
    · subst ha
      refine ⟨by rw [hdl], by rw [hdl]; omega, ?_⟩
      rw [hdl]
      simpa using h2
    · subst ha
      refine ⟨by rw [hdl], by rw [hdl]; omega, ?_⟩
      rw [hdl]
      simpa using h2

/-- Counterexample to C4: a header declaring exactly the 50 KiB ceiling for
discriminant `0x0a` passes both checks, and `read_packet` then calls
`try_reserve_exact` with `50 * 1024 + 1` bytes — one byte more than the
policy ceiling (the extra byte re-admits the discriminant), so the buffer it
allocates is larger than `policy_ceiling(discriminant)`. -/
theorem claim4_counterexample :
    read_packet_allocs [0, 0, 200, 0, 0x0a] = [50 * 1024 + 1] ∧
    get_code_maxlen 0x0a < 50 * 1024 + 1 := by
  constructor
  · rfl
  · norm_num [get_code_maxlen]

/-- C4 amended: for every declared payload length up to `u32::MAX` and every
discriminant, `read_packet` allocates a single buffer of at most
`policy_ceiling(discriminant) + 1` bytes (the declared length, at most the
ceiling, plus one byte for the discriminant), and nothing larger even
transiently. -/
theorem claim4_allocation_bound :
    ∀ stream a, a ∈ read_packet_allocs stream →
      a ≤ get_code_maxlen (stream.getD 4 0) + 1 := by
  intro stream a ha
  obtain ⟨rfl, -, hle⟩ := read_packet_allocs_inversion stream a ha
  omega

/-- Witness for C4 amended: on the counterexample stream the single
allocation of `50 * 1024 + 1` bytes is within the amended bound. -/
theorem claim4_allocation_bound_witness :
    (50 * 1024 + 1) ∈ read_packet_allocs [0, 0, 200, 0, 0x0a] ∧
    50 * 1024 + 1 ≤ get_code_maxlen ([0, 0, 200, 0, 0x0a].getD 4 0) + 1 := by
  have hm : (50 * 1024 + 1) ∈ read_packet_allocs [0, 0, 200, 0, 0x0a] := by
    have : read_packet_allocs [0, 0, 200, 0, 0x0a] = [50 * 1024 + 1] := rfl
    rw [this]
    exact List.mem_singleton.mpr rfl
  exact ⟨hm, claim4_allocation_bound _ _ hm⟩

/-- C5: on every successful return `read_packet` yields a buffer of length
`declared_len + 1` whose byte 0 is the discriminant from the header's fifth
byte and whose remaining bytes are exactly the next `declared_len` bytes of
the stream after the header; and any allocation happens only after both the
floor check and the ceiling check have passed. -/
theorem claim5_success_shape :
    (∀ stream buf, read_packet stream = .ok buf →
      buf.length = declared_len stream + 1 ∧
      buf = stream.getD 4 0 :: (stream.drop 5).take (declared_len stream) ∧
      read_packet_allocs stream = [declared_len stream + 1] ∧
      read_packet_consumed stream = 5 + declared_len stream) ∧
    (∀ stream, read_packet_allocs stream ≠ [] →
      4 ≤ declared_len stream ∧
      declared_len stream ≤ get_code_maxlen (stream.getD 4 0)) := by
  constructor
  · intro stream buf h
    obtain ⟨-, -, -, hsup, hbuf, hall, hcon⟩ :=
      read_packet_ok_inversion stream buf h
    refine ⟨?_, hbuf, hall, hcon⟩
    rw [hbuf]
    simp only [List.length_cons, List.length_take]
    rw [Nat.min_eq_left hsup]
  · intro stream hne
    obtain ⟨a, ha⟩ := List.exists_mem_of_ne_nil _ hne
    obtain ⟨-, h4, hle⟩ := read_packet_allocs_inversion stream a ha
    exact ⟨h4, hle⟩

/-- Witness for C5: a frame declaring 4 payload bytes is read back as the
discriminant byte followed by those 4 bytes, with the single allocation of
5 bytes made after the checks passed. -/
theorem claim5_success_shape_witness :
    read_packet [0, 0, 0, 4, 0x0a, 1, 2, 3, 4] = .ok [0x0a, 1, 2, 3, 4] ∧
    ([0x0a, 1, 2, 3, 4] : List Nat).length =
      declared_len [0, 0, 0, 4, 0x0a, 1, 2, 3, 4] + 1 ∧
    read_packet_allocs [0, 0, 0, 4, 0x0a, 1, 2, 3, 4] =
      [declared_len [0, 0, 0, 4, 0x0a, 1, 2, 3, 4] + 1] ∧
    read_packet_consumed [0, 0, 0, 4, 0x0a, 1, 2, 3, 4] =
      5 + declared_len [0, 0, 0, 4, 0x0a, 1, 2, 3, 4] := by
  have h : read_packet [0, 0, 0, 4, 0x0a, 1, 2, 3, 4] =
      .ok [0x0a, 1, 2, 3, 4] := rfl
  have hc := (claim5_success_shape.1 _ _ h)
  exact ⟨h, hc.1, hc.2.2.1, hc.2.2.2⟩

/-- Counterexample to C6: for a buffer of `2 ^ 32 + 1` bytes the emitted
4-byte big-endian prefix cannot equal `buffer.length - 1 = 2 ^ 32` — the
`as u32` cast in `write_packet` truncates, and the prefix decodes to `0`. -/
theorem claim6_counterexample :
    ¬ (∃ b0 b1 b2 b3,
      write_packet (List.replicate (2 ^ 32 + 1) 0) =
        b0 :: b1 :: b2 :: b3 :: List.replicate (2 ^ 32 + 1) 0 ∧
      u32_from_be b0 b1 b2 b3 =
        (List.replicate (2 ^ 32 + 1) 0).length - 1) := by
  rintro ⟨b0, b1, b2, b3, heq, hval⟩
  have hw : write_packet (List.replicate (2 ^ 32 + 1) 0) =
      0 :: 0 :: 0 :: 0 :: List.replicate (2 ^ 32 + 1) 0 := by
    rw [write_packet, List.length_replicate]
    norm_num [u32_to_be]
  rw [hw] at heq
  simp only [List.cons.injEq] at heq
  obtain ⟨h0, h1, h2, h3, -⟩ := heq
  rw [← h0, ← h1, ← h2, ← h3, List.length_replicate] at hval
  simp [u32_from_be] at hval

/-- C6 amended: for every nonempty buffer, `write_packet` emits a 4-byte
prefix followed by the entire buffer verbatim and nothing else, and the
prefix is the big-endian encoding of `(buffer.length - 1) % 2 ^ 32` — equal
to `buffer.length - 1` (the payload length, discriminant byte excluded)
whenever that value fits in 32 bits, which the `as u32` cast truncates
otherwise. -/
theorem claim6_write_packet_layout :
    ∀ data : List Nat, data ≠ [] →
      ∃ b0 b1 b2 b3, write_packet data = b0 :: b1 :: b2 :: b3 :: data ∧
        u32_from_be b0 b1 b2 b3 = (data.length - 1) % 2 ^ 32 := by
  intro data _
  refine ⟨_, _, _, _, rfl, ?_⟩
  rw [u32_from_be_to_be]
  exact Nat.mod_mod_of_dvd _ dvd_rfl

/-- Witness for C6 amended: writing the 5-byte buffer `[0x0a, 1, 2, 3]`
emits the prefix `[0, 0, 0, 3]` — which decodes to the payload length 3 —
followed by the buffer itself. -/
theorem claim6_write_packet_layout_witness :
    ([0x0a, 1, 2, 3] : List Nat) ≠ [] ∧
    ∃ b0 b1 b2 b3,
      write_packet [0x0a, 1, 2, 3] = b0 :: b1 :: b2 :: b3 :: [0x0a, 1, 2, 3] ∧
      u32_from_be b0 b1 b2 b3 =
        (([0x0a, 1, 2, 3] : List Nat).length - 1) % 2 ^ 32 := by
  have hne : ([0x0a, 1, 2, 3] : List Nat) ≠ [] := by simp
  exact ⟨hne, claim6_write_packet_layout [0x0a, 1, 2, 3] hne⟩

/-- Counterexample to C7: the frame round-trip fails for the one-byte buffer
`[0x0a]` — `write_packet` declares payload length 0, which `read_packet`
rejects with `InvalidData` because of the 4-byte length floor — and also for
a buffer whose payload exceeds its discriminant's ceiling (an `Ok` buffer of
`50 * 1024 + 5` bytes), which the ceiling check rejects. -/
theorem claim7_counterexample :
    (1 ≤ ([0x0a] : List Nat).length ∧
      read_packet (write_packet [0x0a]) ≠ .ok [0x0a]) ∧
    (1 ≤ (0x0a :: List.replicate (50 * 1024 + 4) 0).length ∧
      read_packet (write_packet (0x0a :: List.replicate (50 * 1024 + 4) 0)) ≠
        .ok (0x0a :: List.replicate (50 * 1024 + 4) 0)) := by
  refine ⟨⟨by simp, ?_⟩,
    ⟨List.length_pos.mpr (List.cons_ne_nil _ _), ?_⟩⟩
  · have h : read_packet (write_packet [0x0a]) =
        .error (.IOError .invalidData) := rfl
    rw [h]
    simp
  · have key : ∀ L : List Nat, L.length = 50 * 1024 + 4 →
        read_packet (write_packet (0x0a :: L)) =
          .error (.IOError .invalidData) := by
      intro L hL
      have hw : write_packet (0x0a :: L) = 0 :: 0 :: 200 :: 4 :: 0x0a :: L := by
        rw [write_packet, List.length_cons, hL]
        have h1 : (50 * 1024 + 4 + 1 - 1) % 2 ^ 32 = 51204 := by norm_num
        rw [h1]
        have h2 : u32_to_be 51204 = [0, 0, 200, 4] := by
          norm_num [u32_to_be]
        rw [h2]
        rfl
      rw [hw, read_packet, read_packet_run_cons, if_neg (by decide),
        if_pos (by decide)]
    rw [key _ (List.length_replicate _ _)]
    exact fun hcontra => Except.noConfusion hcontra

/-- C7 amended: the frame round-trip holds for every buffer long enough to
pass the 4-byte length floor and small enough to pass its discriminant's
ceiling: if `5 ≤ b.length` and `b.length - 1 ≤ get_code_maxlen b[0]`, then
reading back what `write_packet` wrote returns exactly `b`. -/
theorem claim7_frame_roundtrip :
    ∀ b : List Nat, 5 ≤ b.length →
      b.length - 1 ≤ get_code_maxlen (b.getD 0 0) →
      read_packet (write_packet b) = .ok b := by
  intro b h5 hceil
  rcases b with _ | ⟨c, t⟩
  · simp at h5
  · simp only [List.length_cons, List.getD_cons_zero] at h5 hceil
    have hceil' : t.length ≤ get_code_maxlen c := by omega
    have h4 : 4 ≤ t.length := by omega
    have hlt : t.length < 2 ^ 32 :=
      lt_of_le_of_lt hceil' (get_code_maxlen_lt c)
    have hw : write_packet (c :: t) = u32_to_be t.length ++ c :: (t ++ []) := by
      rw [write_packet]
      simp only [List.length_cons, Nat.add_sub_cancel, List.append_nil,
        Nat.mod_eq_of_lt hlt]
    rw [hw, read_packet,
      read_packet_run_ok t.length c t [] h4 hceil' rfl]

/-- Witness for C7 amended: the 5-byte buffer `[0x0a, 1, 2, 3, 4]` survives
the write/read round-trip. -/
theorem claim7_frame_roundtrip_witness :
    5 ≤ ([0x0a, 1, 2, 3, 4] : List Nat).length ∧
    ([0x0a, 1, 2, 3, 4] : List Nat).length - 1 ≤
      get_code_maxlen (([0x0a, 1, 2, 3, 4] : List Nat).getD 0 0) ∧
    read_packet (write_packet [0x0a, 1, 2, 3, 4]) = .ok [0x0a, 1, 2, 3, 4] := by
  have h5 : 5 ≤ ([0x0a, 1, 2, 3, 4] : List Nat).length := by simp
  have hc : ([0x0a, 1, 2, 3, 4] : List Nat).length - 1 ≤
      get_code_maxlen (([0x0a, 1, 2, 3, 4] : List Nat).getD 0 0) := by
    norm_num [get_code_maxlen]
  exact ⟨h5, hc, claim7_frame_roundtrip [0x0a, 1, 2, 3, 4] h5 hc⟩

/-- C8: serializing any well-formed message (discriminant byte first, then
the codec-encoded payload) and deserializing the result yields the original
message back; records are compared by content (list equality of their
fields).  `msgWf` states that the message's record has its variant's field
shape with in-range field values, which every value of the Rust record types
satisfies by typing. -/
theorem claim8_message_roundtrip :
    ∀ m : RpcMessage, msgWf m = true →
      deserialize (serializeRpc m) = some (.ok m) := by
  intro m hwf
  rw [msgWf, Bool.and_eq_true, beq_iff_eq] at hwf
  obtain ⟨hs, hw⟩ := hwf
  cases m with
  | Ok => rfl
  | Fail r =>
    simp only [msgRecord, get_code] at hs hw
    simp [serializeRpc, get_code, msgRecord, deserialize,
      deserialize_check_encodeRecord _ r hs hw, Except.map]
  | Notify r =>
    simp only [msgRecord, get_code] at hs hw
    simp [serializeRpc, get_code, msgRecord, deserialize,
      deserialize_check_encodeRecord _ r hs hw, Except.map]
  | Hello r =>
    simp only [msgRecord, get_code] at hs hw
    simp [serializeRpc, get_code, msgRecord, deserialize,
      deserialize_check_encodeRecord _ r hs hw, Except.map]
  | PullMetadata r =>
    simp only [msgRecord, get_code] at hs hw
    simp [serializeRpc, get_code, msgRecord, deserialize,
      deserialize_check_encodeRecord _ r hs hw, Except.map]
  | PullMetadataResult r =>
    simp only [msgRecord, get_code] at hs hw
    simp [serializeRpc, get_code, msgRecord, deserialize,
      deserialize_check_encodeRecord _ r hs hw, Except.map]
  | PushMetadata r =>
    simp only [msgRecord, get_code] at hs hw
    simp [serializeRpc, get_code, msgRecord, deserialize,
      deserialize_check_encodeRecord _ r hs hw, Except.map]
  | PushMetadataResult r =>
    simp only [msgRecord, get_code] at hs hw
    simp [serializeRpc, get_code, msgRecord, deserialize,
      deserialize_check_encodeRecord _ r hs hw, Except.map]

/-- Witness for C8: a concrete `Hello` message round-trips. -/
theorem claim8_message_roundtrip_witness :
    msgWf (.Hello [.scalar 2, .blob [104, 105]]) = true ∧
    deserialize (serializeRpc (.Hello [.scalar 2, .blob [104, 105]])) =
      some (.ok (.Hello [.scalar 2, .blob [104, 105]])) := by
  have hwf : msgWf (.Hello [.scalar 2, .blob [104, 105]]) = true := by decide
  exact ⟨hwf, claim8_message_roundtrip _ hwf⟩

/-- C9: decoding is tolerant of trailing bytes — for every known
discriminant, if the payload decode succeeds after consuming fewer bytes
than the buffer holds, `deserialize` still succeeds with that discriminant's
variant; in particular a buffer starting with `0x0a` yields `RpcMessage.Ok`
regardless of how many extra bytes follow. -/
theorem claim9_tolerant_decode :
    (∀ extra, deserialize (0x0a :: extra) = some (.ok .Ok)) ∧
    (∀ d p r n, d ∈ knownCodes →
      decodeFields (shapeOfCode d) p = .ok (r, n) → n < p.length →
      deserialize (d :: p) = some (.ok (mkMsg d r))) := by
  constructor
  · intro extra
    simp [deserialize]
  · intro d p r n hd hdec _
    simp only [knownCodes] at hd
    fin_cases hd
    · simp only [shapeOfCode, decodeFields] at hdec
      norm_num at hdec
      obtain ⟨rfl, -⟩ := hdec
      simp [deserialize, mkMsg]
    · simp [deserialize, mkMsg, deserialize_check, hdec, Except.map]
    · simp [deserialize, mkMsg, deserialize_check, hdec, Except.map]
    · simp [deserialize, mkMsg, deserialize_check, hdec, Except.map]
    · simp [deserialize, mkMsg, deserialize_check, hdec, Except.map]
    · simp [deserialize, mkMsg, deserialize_check, hdec, Except.map]
    · simp [deserialize, mkMsg, deserialize_check, hdec, Except.map]
    · simp [deserialize, mkMsg, deserialize_check, hdec, Except.map]

/-- Witness for C9: a `Fail` payload followed by two extra trailing bytes
still decodes to `RpcMessage.Fail`. -/
theorem claim9_tolerant_decode_witness :
    (0x0b : Nat) ∈ knownCodes ∧
    decodeFields (shapeOfCode 0x0b)
      (encodeRecord [.scalar 1, .blob [65]] ++ [9, 9]) =
      .ok ([.scalar 1, .blob [65]], 9) ∧
    9 < (encodeRecord [.scalar 1, .blob [65]] ++ [9, 9]).length ∧
    deserialize (0x0b :: (encodeRecord [.scalar 1, .blob [65]] ++ [9, 9])) =
      some (.ok (mkMsg 0x0b [.scalar 1, .blob [65]])) := by
  have hmem : (0x0b : Nat) ∈ knownCodes := by decide
  have hdec : decodeFields (shapeOfCode 0x0b)
      (encodeRecord [.scalar 1, .blob [65]] ++ [9, 9]) =
      .ok ([.scalar 1, .blob [65]], 9) := by rfl
  have hlt : 9 < (encodeRecord [.scalar 1, .blob [65]] ++ [9, 9]).length := by
    decide
  exact ⟨hmem, hdec, hlt,
    claim9_tolerant_decode.2 0x0b _ _ 9 hmem hdec hlt⟩

/-- C10: `RpcMessage::deserialize` indexes `payload[0]` unconditionally, so
it is total only on non-empty buffers — the empty buffer hits the
out-of-bounds panic (modelled by `none`) rather than a typed error — and
every buffer a successful `read_packet` returns has length at least 5, so it
satisfies the precondition. -/
theorem claim10_deserialize_precondition :
    deserialize [] = none ∧
    (∀ p, p ≠ [] → deserialize p ≠ none) ∧
    (∀ stream buf, read_packet stream = .ok buf →
      5 ≤ buf.length ∧ deserialize buf ≠ none) := by
  refine ⟨rfl, ?_, ?_⟩
  · intro p hp
    rcases p with _ | ⟨d, q⟩
    · exact absurd rfl hp
    · simp [deserialize]
  · intro stream buf h
    obtain ⟨-, h4, -, hsup, hbuf, -, -⟩ :=
      read_packet_ok_inversion stream buf h
    constructor
    · rw [hbuf]
      simp only [List.length_cons, List.length_take]
      rw [Nat.min_eq_left hsup]
      omega
    · rw [hbuf]
      simp [deserialize]

/-- Witness for C10: a concrete successful `read_packet` yields a buffer of
length at least 5 on which `deserialize` does not hit the panic. -/
theorem claim10_deserialize_precondition_witness :
    read_packet [0, 0, 0, 4, 0x0b, 1, 2, 3, 4] = .ok [0x0b, 1, 2, 3, 4] ∧
    5 ≤ ([0x0b, 1, 2, 3, 4] : List Nat).length ∧
    deserialize [0x0b, 1, 2, 3, 4] ≠ none := by
  have h : read_packet [0, 0, 0, 4, 0x0b, 1, 2, 3, 4] =
      .ok [0x0b, 1, 2, 3, 4] := rfl
  exact ⟨h, claim10_deserialize_precondition.2.2 _ _ h⟩

end Lumen
